import Mathlib

/-!
Shallow embedding of `src/JSONExporter.py` (function
`generate_graph_from_package` and its nested helpers), together with
proofs of the specified properties of the graph-construction traversal.

The repository adapter (EA COM objects) is modelled as plain data:
a `Repository` holds the elements and packages, and `GetElementByID` /
`GetPackageByID` are keyed lookups returning `Option`, matching the
`None` checks the Python code performs.  A Python attribute access on a
`None` lookup result (which raises `AttributeError`) is modelled by the
`Except` error `PyError.attributeError`.  The mutually recursive
traversal is given explicit fuel (`PyError.outOfFuel`); the top-level
call supplies fuel `repo.elements.length + 1`, which bounds the nesting
depth of `process_element` calls since every nested call marks a fresh
element id visited.
-/

namespace JSONExporter

/-- Model attribute, as read from the source model (EA `Attribute`:
`AttributeID`, `Name`, `Type`, `Default`). -/
structure EAAttribute where
  attributeID : Nat
  name : String
  type : String
  default : String
deriving Repr, DecidableEq

/-- Model connector (EA `Connector`: `ClientID`, `SupplierID`, `Type`, `Name`). -/
structure EAConnector where
  clientID : Nat
  supplierID : Nat
  type : String
  name : String
deriving Repr, DecidableEq

/-- Diagram-object placement (EA `DiagramObject`): references an element by id
and carries optional position geometry (`getattr(diag_object, "left", None)`
etc. in the source yields `None` when the attribute is absent). -/
structure EADiagramObject where
  elementID : Nat
  left : Option Int
  right : Option Int
  top : Option Int
  bottom : Option Int
deriving Repr, DecidableEq

/-- Model diagram (EA `Diagram`): id, name and its ordered diagram objects. -/
structure EADiagram where
  diagramID : Nat
  name : String
  diagramObjects : List EADiagramObject
deriving Repr, DecidableEq

/-- Model element (EA `Element`): id, name, type tag, attributes, owned
connectors, linked diagrams, classifier reference, owning package. -/
structure EAElement where
  elementID : Nat
  name : String
  type : String
  attributes : List EAAttribute
  connectors : List EAConnector
  diagrams : List EADiagram
  classifierID : Nat
  packageID : Nat
deriving Repr, DecidableEq

/-- Model package (EA `Package`): id, name and its ordered diagram list. -/
structure EAPackage where
  packageID : Nat
  name : String
  diagrams : List EADiagram
deriving Repr, DecidableEq

/-- Read-only repository adapter: the collections backing the id lookups. -/
structure Repository where
  elements : List EAElement
  packages : List EAPackage
deriving Repr, DecidableEq

/-- Lookup of an element by id (`repository.GetElementByID`), `none` when the
id does not resolve. -/
def Repository.GetElementByID (repo : Repository) (id : Nat) : Option EAElement :=
  repo.elements.find? (fun e => e.elementID == id)

/-- Lookup of a package by id (`repository.GetPackageByID`), `none` when the
id does not resolve. -/
def Repository.GetPackageByID (repo : Repository) (id : Nat) : Option EAPackage :=
  repo.packages.find? (fun p => p.packageID == id)

/-- Output position record (the `"position"` object of an `ElementNode`). -/
structure Position where
  left : Option Int
  right : Option Int
  top : Option Int
  bottom : Option Int
deriving Repr, DecidableEq

/-- Output attribute record (the `"attributes"` entries). -/
structure AttrRecord where
  id : Nat
  name : String
  type : String
  default : String
deriving Repr, DecidableEq

mutual
/-- Output node: an `ElementNode` (id, name, type, attributes, linkedDiagrams,
position), an `ExternalNode` (id, name, type, package, attributes) or the
`PackageNode` (name, type, diagrams); heterogeneous entries of `"nodes"`. -/
inductive Node where
  | elemNode (id : Nat) (name : String) (type : String)
      (attributes : List AttrRecord) (linkedDiagrams : List DiagramRecord)
      (position : Option Position) : Node
  | extNode (id : Nat) (name : String) (type : String)
      (package : Option String) (attributes : List AttrRecord) : Node
  | pkgNode (name : String) (type : String) (diagrams : List DiagramRecord) : Node
deriving Repr

/-- Output diagram record: string id `"D" ++ diagramID`, name, type tag
`"Diagram"` and the collected element nodes. -/
inductive DiagramRecord where
  | mk (id : String) (name : String) (type : String) (elements : List Node) :
      DiagramRecord
deriving Repr
end

/-- Output edge record; `fromID`/`toID` are the JSON keys `"from"`/`"to"`. -/
structure Edge where
  fromID : Nat
  toID : Nat
  type : String
  name : String
deriving Repr, DecidableEq

/-- The produced graph: `{"nodes": [...], "edges": [...]}`. -/
structure Graph where
  nodes : List Node
  edges : List Edge
deriving Repr

/-- Traversal state: the graph under construction plus the tracking
sets/dict of `generate_graph_from_package` (`visited_elements`,
`visited_diagrams`, `edge_set`, `processed_elements`).  The Python sets are
only ever membership-tested, so lists with append model them exactly. -/
structure TState where
  nodes : List Node
  edges : List Edge
  visitedElements : List Nat
  visitedDiagrams : List Nat
  edgeSet : List String
  processedElements : List (Nat × Node)
deriving Repr

/-- The state at the start of `generate_graph_from_package`. -/
def initState : TState :=
  { nodes := [], edges := [], visitedElements := [], visitedDiagrams := [],
    edgeSet := [], processedElements := [] }

/-- Errors of the embedding: `attributeError` models a Python
`AttributeError` raised by accessing `.ElementID` on a `None` lookup result;
`outOfFuel` is the artificial recursion bound of the embedding. -/
inductive PyError where
  | attributeError
  | outOfFuel
deriving Repr, DecidableEq

/-- Build an output attribute record from a model attribute, as in the
attribute loops of `process_element` and `process_external_classifier`. -/
def mkAttrRecord (a : EAAttribute) : AttrRecord :=
  { id := a.attributeID, name := a.name, type := a.type, default := a.default }

/-- Build the position record from a diagram-object placement. -/
def mkPosition (o : EADiagramObject) : Position :=
  { left := o.left, right := o.right, top := o.top, bottom := o.bottom }

/-- The dict read `processed_elements.get(id, None)`. -/
def lookupNode (ps : List (Nat × Node)) (id : Nat) : Option Node :=
  (ps.find? (fun p => p.fst == id)).map Prod.snd

/-- Embedding of `add_edges_from_element`, one connector at a time.  Note
that the source accesses `sourceElement.ElementID` and
`targetElement.ElementID` without a `None` check, so a failed client or
supplier lookup raises (`attributeError`) instead of being skipped. -/
def addEdgesLoop (repo : Repository) : List EAConnector → TState →
    Except PyError TState
  | [], st => Except.ok st
  | connector :: rest, st =>
    match repo.GetElementByID connector.clientID with
    | none => Except.error PyError.attributeError
    | some sourceElement =>
      match repo.GetElementByID connector.supplierID with
      | none => Except.error PyError.attributeError
      | some targetElement =>
        let edgeID := toString sourceElement.elementID ++ "-" ++
          toString targetElement.elementID ++ "-" ++ connector.type
        if edgeID ∈ st.edgeSet then
          addEdgesLoop repo rest st
        else
          addEdgesLoop repo rest
            { st with
              edges := st.edges ++
                [{ fromID := sourceElement.elementID,
                   toID := targetElement.elementID,
                   type := connector.type, name := connector.name }],
              edgeSet := st.edgeSet ++ [edgeID] }

/-- Embedding of `add_edges_from_element(element)`. -/
def addEdgesFromElement (repo : Repository) (element : EAElement)
    (st : TState) : Except PyError TState :=
  addEdgesLoop repo element.connectors st

/-- The reduced external node built by `process_external_classifier`:
id, name, type, owning package name when resolvable, attributes. -/
def externalNodeFor (repo : Repository) (classifier : EAElement) : Node :=
  Node.extNode classifier.elementID classifier.name classifier.type
    ((repo.GetPackageByID classifier.packageID).map EAPackage.name)
    (classifier.attributes.map mkAttrRecord)

/-- Embedding of `process_external_classifier(classifierID)`: resolve the
classifier; if found and not visited, append the reduced external node,
mark it visited and record it; otherwise leave the state unchanged. -/
def processExternalClassifier (repo : Repository) (classifierID : Nat)
    (st : TState) : TState :=
  match repo.GetElementByID classifierID with
  | none => st
  | some classifier =>
    if classifier.elementID ∈ st.visitedElements then st
    else
      let externalNode := externalNodeFor repo classifier
      { st with
        nodes := st.nodes ++ [externalNode],
        visitedElements := st.visitedElements ++ [classifier.elementID],
        processedElements := st.processedElements ++
          [(classifier.elementID, externalNode)] }

/-- Embedding of the diagram-object loops of `process_main_diagram` and
`process_linked_diagrams` (both loops are identical in the source):
resolve each placement's element, skip it when the lookup fails or the
element is already visited, otherwise process it with `pe` and collect
the non-`none` results in placement order.  `pe` is the (fuelled)
`process_element`. -/
def processDiagramObjectsWith (repo : Repository)
    (pe : EAElement → Option EADiagramObject → TState →
      Except PyError (Option Node × TState)) :
    List EADiagramObject → TState → Except PyError (List Node × TState)
  | [], st => Except.ok ([], st)
  | o :: os, st =>
    match repo.GetElementByID o.elementID with
    | none => processDiagramObjectsWith repo pe os st
    | some el =>
      if el.elementID ∈ st.visitedElements then
        processDiagramObjectsWith repo pe os st
      else
        match pe el (some o) st with
        | Except.error err => Except.error err
        | Except.ok (n?, st2) =>
          match processDiagramObjectsWith repo pe os st2 with
          | Except.error err => Except.error err
          | Except.ok (ns, st3) =>
            Except.ok ((match n? with | some n => n :: ns | none => ns), st3)

/-- Embedding of `process_linked_diagrams(element, node)`: walk the
element's linked diagrams, skipping any diagram already globally visited,
otherwise marking it visited, expanding its diagram objects and collecting
the diagram records in order (the appends to `node["linkedDiagrams"]`). -/
def processLinkedDiagramsWith (repo : Repository)
    (pe : EAElement → Option EADiagramObject → TState →
      Except PyError (Option Node × TState)) :
    List EADiagram → TState → Except PyError (List DiagramRecord × TState)
  | [], st => Except.ok ([], st)
  | d :: ds, st =>
    if d.diagramID ∈ st.visitedDiagrams then
      processLinkedDiagramsWith repo pe ds st
    else
      let st1 := { st with visitedDiagrams := st.visitedDiagrams ++ [d.diagramID] }
      match processDiagramObjectsWith repo pe d.diagramObjects st1 with
      | Except.error err => Except.error err
      | Except.ok (elems, st2) =>
        match processLinkedDiagramsWith repo pe ds st2 with
        | Except.error err => Except.error err
        | Except.ok (recs, st3) =>
          Except.ok (DiagramRecord.mk ("D" ++ toString d.diagramID) d.name
            "Diagram" elems :: recs, st3)

/-- Embedding of `process_element(element, diag_object)`.  A visited element
returns the recorded node (dict `get`) without touching the state; an
unvisited one is marked visited, its node (id, name, type, attributes,
linked diagrams, position) is built, its classifier, linked diagrams and
connectors are handled, and the node is appended and recorded.  The fuel
argument only bounds the recursion depth of the embedding. -/
def processElement (repo : Repository) (fuel : Nat) (element : EAElement)
    (diagObject : Option EADiagramObject) (st : TState) :
    Except PyError (Option Node × TState) :=
  match fuel with
  | 0 => Except.error PyError.outOfFuel
  | Nat.succ f =>
    if element.elementID ∈ st.visitedElements then
      Except.ok (lookupNode st.processedElements element.elementID, st)
    else
      let st1 := { st with visitedElements := st.visitedElements ++ [element.elementID] }
      let attrs := element.attributes.map mkAttrRecord
      let position := diagObject.map mkPosition
      let st2 := if element.classifierID != 0
        then processExternalClassifier repo element.classifierID st1 else st1
      match processLinkedDiagramsWith repo
          (fun el o s => processElement repo f el o s) element.diagrams st2 with
      | Except.error err => Except.error err
      | Except.ok (linked, st3) =>
        match addEdgesFromElement repo element st3 with
        | Except.error err => Except.error err
        | Except.ok st4 =>
          let node := Node.elemNode element.elementID element.name element.type
            attrs linked position
          Except.ok (some node,
            { st4 with
              nodes := st4.nodes ++ [node],
              processedElements := st4.processedElements ++
                [(element.elementID, node)] })
termination_by structural fuel

/-- Embedding of `process_main_diagram(package)`: with no diagrams the state
is untouched; otherwise the first diagram is marked visited, its diagram
objects are expanded, and the package node (name, `"Package"`, the single
main-diagram record) is appended after all element nodes. -/
def processMainDiagram (repo : Repository) (fuel : Nat) (package : EAPackage)
    (st : TState) : Except PyError TState :=
  match package.diagrams with
  | [] => Except.ok st
  | mainDiagram :: _ =>
    let st1 := { st with visitedDiagrams := st.visitedDiagrams ++ [mainDiagram.diagramID] }
    match processDiagramObjectsWith repo
        (fun el o s => processElement repo fuel el o s)
        mainDiagram.diagramObjects st1 with
    | Except.error err => Except.error err
    | Except.ok (elems, st2) =>
      Except.ok { st2 with
        nodes := st2.nodes ++
          [Node.pkgNode package.name "Package"
            [DiagramRecord.mk ("D" ++ toString mainDiagram.diagramID)
              mainDiagram.name "Diagram" elems]] }

/-- Embedding of `generate_graph_from_package(ea_pkg, repository)`: run
`process_main_diagram` on a fresh state and return the nodes and edges.
The fuel `repo.elements.length + 1` bounds the `process_element` nesting
depth, which cannot exceed the number of distinct element ids. -/
def generate_graph_from_package (repo : Repository) (pkg : EAPackage) :
    Except PyError Graph :=
  match processMainDiagram repo (repo.elements.length + 1) pkg initState with
  | Except.error err => Except.error err
  | Except.ok st => Except.ok { nodes := st.nodes, edges := st.edges }

/-! ## Observations on the output and the traversal invariant -/

/-- The element id carried by an output node: `ElementNode` and
`ExternalNode` entries carry an `"id"`, the `PackageNode` does not. -/
def nodeId? : Node → Option Nat
  | Node.elemNode id _ _ _ _ _ => some id
  | Node.extNode id _ _ _ _ => some id
  | Node.pkgNode _ _ _ => none

/-- All element ids occurring as `"id"` of entries of a node list. -/
def nodeIds (ns : List Node) : List Nat := ns.filterMap nodeId?

/-- The composite edge identity `(from, to, type)`. -/
def edgeTriple (e : Edge) : Nat × Nat × String := (e.fromID, e.toID, e.type)

/-- The string key computed for a composite edge identity
(the f-string `"{sourceID}-{targetID}-{type}"`). -/
def tripleKey (t : Nat × Nat × String) : String :=
  toString t.1 ++ "-" ++ toString t.2.1 ++ "-" ++ t.2.2

/-- The dedup key of an edge, as stored in `edge_set`. -/
def edgeKey (e : Edge) : String := tripleKey (edgeTriple e)

/-- Invariant of the traversal state: output node ids are pairwise distinct
and all marked visited, edge keys are pairwise distinct and all recorded in
`edge_set`, and visited diagram ids are pairwise distinct. -/
structure Inv (st : TState) : Prop where
  nodesNodup : (nodeIds st.nodes).Nodup
  nodesVisited : ∀ i ∈ nodeIds st.nodes, i ∈ st.visitedElements
  edgesNodup : (st.edges.map edgeKey).Nodup
  edgesInSet : ∀ s ∈ st.edges.map edgeKey, s ∈ st.edgeSet
  diagNodup : st.visitedDiagrams.Nodup

/-- Postcondition of one traversal step from `st` to `st'`: the invariant
holds again, visited sets only grow, node ids only accumulate, every newly
appended node id was unvisited before the step, and every visited element
either already has its node in the output or is excused by `P` (the ids of
elements whose `process_element` call is still in progress). -/
def GoodStep (st st' : TState) : Prop :=
  Inv st' ∧
  (∀ i ∈ st.visitedElements, i ∈ st'.visitedElements) ∧
  (∀ i ∈ st.visitedDiagrams, i ∈ st'.visitedDiagrams) ∧
  (∀ i ∈ nodeIds st.nodes, i ∈ nodeIds st'.nodes) ∧
  (∀ i ∈ nodeIds st'.nodes, i ∈ nodeIds st.nodes ∨ i ∉ st.visitedElements) ∧
  (∀ P : Nat → Prop, (∀ i ∈ st.visitedElements, i ∈ nodeIds st.nodes ∨ P i) →
    ∀ i ∈ st'.visitedElements, i ∈ nodeIds st'.nodes ∨ P i)

/-! ## Concrete model fixtures used in scenario theorems and witnesses -/

/-- Element A of the specified scenario: id 1, no classifier, no connectors. -/
def elemA : EAElement :=
  { elementID := 1, name := "A", type := "Class", attributes := [],
    connectors := [], diagrams := [], classifierID := 0, packageID := 5 }

/-- Element B of the specified scenario: id 2, no classifier, one connector
from A (id 1) to B (id 2) of type `"Association"` named `"uses"`. -/
def elemB : EAElement :=
  { elementID := 2, name := "B", type := "Class", attributes := [],
    connectors := [{ clientID := 1, supplierID := 2, type := "Association",
                     name := "uses" }],
    diagrams := [], classifierID := 0, packageID := 5 }

/-- Placement of element 1 on the main diagram. -/
def objA : EADiagramObject := ⟨1, some 10, some 20, some 5, some 15⟩

/-- Placement of element 2 on the main diagram. -/
def objB : EADiagramObject := ⟨2, some 30, some 40, some 5, some 15⟩

/-- The single diagram D of the scenario, holding A then B. -/
def diagD : EADiagram := ⟨7, "D", [objA, objB]⟩

/-- The root package P of the scenario, with the single diagram D. -/
def pkgP : EAPackage := { packageID := 5, name := "P", diagrams := [diagD] }

/-- Repository backing the scenario. -/
def repo1 : Repository := { elements := [elemA, elemB], packages := [pkgP] }

/-- The element node built for A. -/
def nodeA : Node :=
  Node.elemNode 1 "A" "Class" [] [] (some ⟨some 10, some 20, some 5, some 15⟩)

/-- The element node built for B. -/
def nodeB : Node :=
  Node.elemNode 2 "B" "Class" [] [] (some ⟨some 30, some 40, some 5, some 15⟩)

/-- The package node built for P (appended after the element nodes). -/
def nodeP : Node :=
  Node.pkgNode "P" "Package"
    [DiagramRecord.mk "D7" "D" "Diagram" [nodeA, nodeB]]

/-- Element with a connector whose client id 99 resolves to no element. -/
def elemE : EAElement :=
  { elementID := 1, name := "E", type := "Class", attributes := [],
    connectors := [{ clientID := 99, supplierID := 1, type := "Dependency",
                     name := "d" }],
    diagrams := [], classifierID := 0, packageID := 5 }

/-- Repository with the dangling connector endpoint. -/
def repo2 : Repository := { elements := [elemE], packages := [] }

/-- Package whose main diagram places element 1, which owns the dangling
connector. -/
def pkg2 : EAPackage :=
  { packageID := 5, name := "P2",
    diagrams := [⟨8, "D2", [⟨1, none, none, none, none⟩]⟩] }

/-- Repository with a single element placed twice on one diagram. -/
def repo3 : Repository := { elements := [elemA], packages := [] }

/-- Package whose main diagram places element 1 twice. -/
def pkg3 : EAPackage :=
  { packageID := 5, name := "P3", diagrams := [⟨9, "D3", [objA, objA]⟩] }

/-- Element owning a connector to element 2, which sits on no diagram. -/
def elemF : EAElement :=
  { elementID := 1, name := "F", type := "Class", attributes := [],
    connectors := [{ clientID := 1, supplierID := 2, type := "Dependency",
                     name := "x" }],
    diagrams := [], classifierID := 0, packageID := 5 }

/-- Element 2: resolvable, but never placed on any diagram. -/
def elemG : EAElement :=
  { elementID := 2, name := "G", type := "Class", attributes := [],
    connectors := [], diagrams := [], classifierID := 0, packageID := 5 }

/-- Repository where an edge target is reachable by lookup only. -/
def repo10 : Repository := { elements := [elemF, elemG], packages := [] }

/-- Package placing only element 1. -/
def pkg10 : EAPackage :=
  { packageID := 5, name := "P10",
    diagrams := [⟨11, "DX", [⟨1, none, none, none, none⟩]⟩] }

/-- A root package with an empty diagram list. -/
def pkg7 : EAPackage := { packageID := 6, name := "Q", diagrams := [] }

/-- The single edge of the scenario. -/
def edgeAB : Edge :=
  { fromID := 1, toID := 2, type := "Association", name := "uses" }

/-- The graph the traversal produces on the scenario. -/
def g1result : Graph := { nodes := [nodeA, nodeB, nodeP], edges := [edgeAB] }

/-- The full traversal state after `process_main_diagram` on the scenario
(fuel 3 is the fuel `generate_graph_from_package` passes for `repo1`). -/
def stScenario : TState :=
  { nodes := [nodeA, nodeB, nodeP], edges := [edgeAB],
    visitedElements := [1, 2], visitedDiagrams := [7],
    edgeSet := ["1-2-Association"],
    processedElements := [(1, nodeA), (2, nodeB)] }

/-- The graph produced on `repo3`: the duplicate placement is omitted. -/
def g3result : Graph :=
  { nodes := [nodeA,
      Node.pkgNode "P3" "Package" [DiagramRecord.mk "D9" "D3" "Diagram" [nodeA]]],
    edges := [] }

/-- The element node built for F. -/
def nodeF : Node :=
  Node.elemNode 1 "F" "Class" [] [] (some ⟨none, none, none, none⟩)

/-- The graph produced on `repo10`: its edge's target id 2 has no node. -/
def g10result : Graph :=
  { nodes := [nodeF,
      Node.pkgNode "P10" "Package"
        [DiagramRecord.mk "D11" "DX" "Diagram" [nodeF]]],
    edges := [{ fromID := 1, toID := 2, type := "Dependency", name := "x" }] }

/-! ## Helper lemmas about the traversal invariant -/

theorem nodeIds_append (ns ms : List Node) :
    nodeIds (ns ++ ms) = nodeIds ns ++ nodeIds ms := by
  simp [nodeIds]

theorem inv_initState : Inv initState := by
  constructor <;> simp [initState, nodeIds]

theorem goodStep_refl {st : TState} (h : Inv st) : GoodStep st st :=
  ⟨h, fun _ hi => hi, fun _ hi => hi, fun _ hi => hi,
   fun _ hi => Or.inl hi, fun _ pre => pre⟩

theorem goodStep_trans {s1 s2 s3 : TState} (h12 : GoodStep s1 s2)
    (h23 : GoodStep s2 s3) : GoodStep s1 s3 := by
  obtain ⟨i2, v12, d12, n12, f12, p12⟩ := h12
  obtain ⟨i3, v23, d23, n23, f23, p23⟩ := h23
  refine ⟨i3, fun i hi => v23 i (v12 i hi), fun i hi => d23 i (d12 i hi),
    fun i hi => n23 i (n12 i hi), ?_, fun P pre => p23 P (p12 P pre)⟩
  intro i hi
  rcases f23 i hi with h | h
  · exact (f12 i h).imp_right id
  · exact Or.inr fun hc => h (v12 i hc)

theorem processExternalClassifier_goodStep (repo : Repository) (cid : Nat)
    {st : TState} (h : Inv st) :
    GoodStep st (processExternalClassifier repo cid st) := by
  unfold processExternalClassifier
  split
  · exact goodStep_refl h
  · next classifier heq =>
    split
    · exact goodStep_refl h
    · next hv =>
      show GoodStep st
        { st with
          nodes := st.nodes ++ [externalNodeFor repo classifier],
          visitedElements := st.visitedElements ++ [classifier.elementID],
          processedElements := st.processedElements ++
            [(classifier.elementID, externalNodeFor repo classifier)] }
      have hid : classifier.elementID ∉ nodeIds st.nodes :=
        fun hc => hv (h.nodesVisited _ hc)
      have hids : nodeIds (st.nodes ++ [externalNodeFor repo classifier]) =
          nodeIds st.nodes ++ [classifier.elementID] := by
        simp [nodeIds, externalNodeFor, nodeId?]
      refine ⟨⟨?_, ?_, h.edgesNodup, h.edgesInSet, h.diagNodup⟩, ?_, ?_, ?_, ?_, ?_⟩
      · rw [hids]
        exact List.Nodup.append h.nodesNodup (List.nodup_singleton _)
          (fun x hx hy => by
            simp only [List.mem_singleton] at hy
            subst hy
            exact hid hx)
      · intro i hi
        rw [hids] at hi
        rcases List.mem_append.mp hi with hi | hi
        · exact List.mem_append.mpr (Or.inl (h.nodesVisited _ hi))
        · exact List.mem_append.mpr (Or.inr hi)
      · intro i hi
        exact List.mem_append.mpr (Or.inl hi)
      · intro i hi
        exact hi
      · intro i hi
        rw [hids]
        exact List.mem_append.mpr (Or.inl hi)
      · intro i hi
        rw [hids] at hi
        rcases List.mem_append.mp hi with hi | hi
        · exact Or.inl hi
        · rw [List.mem_singleton] at hi
          subst hi
          exact Or.inr hv
      · intro P pre i hi
        rw [hids]
        rcases List.mem_append.mp hi with hi | hi
        · rcases pre i hi with hp | hp
          · exact Or.inl (List.mem_append.mpr (Or.inl hp))
          · exact Or.inr hp
        · rw [List.mem_singleton] at hi
          subst hi
          exact Or.inl (List.mem_append.mpr (Or.inr (List.mem_singleton.mpr rfl)))

theorem inv_addEdge {st : TState} (h : Inv st) (e : Edge)
    (hk : edgeKey e ∉ st.edgeSet) :
    Inv { st with edges := st.edges ++ [e], edgeSet := st.edgeSet ++ [edgeKey e] } := by
  refine ⟨h.nodesNodup, h.nodesVisited, ?_, ?_, h.diagNodup⟩
  · simp only [List.map_append, List.map_singleton]
    exact List.Nodup.append h.edgesNodup (List.nodup_singleton _)
      (fun x hx hy => by
        simp only [List.mem_singleton] at hy; subst hy
        exact hk (h.edgesInSet _ hx))
  · intro s hs
    simp only [List.map_append, List.map_singleton, List.mem_append,
      List.mem_singleton] at hs ⊢
    rcases hs with hs | hs
    · exact Or.inl (h.edgesInSet _ hs)
    · exact Or.inr hs

theorem addEdgesLoop_spec (repo : Repository) (cs : List EAConnector) :
    ∀ st st', addEdgesLoop repo cs st = Except.ok st' →
      st'.nodes = st.nodes ∧ st'.visitedElements = st.visitedElements ∧
      st'.visitedDiagrams = st.visitedDiagrams ∧
      st'.processedElements = st.processedElements ∧ (Inv st → Inv st') := by
  induction cs with
  | nil =>
    intro st st' h
    simp only [addEdgesLoop] at h
    cases h
    exact ⟨rfl, rfl, rfl, rfl, id⟩
  | cons c cs ih =>
    intro st st' h
    rw [addEdgesLoop] at h
    split at h
    · exact absurd h (by simp)
    · next sourceElement hsrc =>
      split at h
      · exact absurd h (by simp)
      · next targetElement htgt =>
        simp only [] at h
        split at h
        · exact ih st st' h
        · next hmem =>
          obtain ⟨h1, h2, h3, h4, h5⟩ := ih _ st' h
          refine ⟨h1, h2, h3, h4, fun hinv => h5 ?_⟩
          exact inv_addEdge hinv _ hmem

theorem addEdgesFromElement_goodStep (repo : Repository) (el : EAElement)
    {st st' : TState} (h : Inv st)
    (hok : addEdgesFromElement repo el st = Except.ok st') : GoodStep st st' := by
  obtain ⟨hn, hv, hd, hp, hi⟩ := addEdgesLoop_spec repo el.connectors st st' hok
  refine ⟨hi h, ?_, ?_, ?_, ?_, ?_⟩
  · intro i him; rw [hv]; exact him
  · intro i him; rw [hd]; exact him
  · intro i him; rw [hn]; exact him
  · intro i him; rw [hn] at him; exact Or.inl him
  · intro P pre i him
    rw [hv] at him
    rw [hn]
    exact pre i him

theorem processDiagramObjectsWith_goodStep (repo : Repository)
    (pe : EAElement → Option EADiagramObject → TState →
      Except PyError (Option Node × TState))
    (hpe : ∀ el o st n? st', Inv st → pe el o st = Except.ok (n?, st') →
      GoodStep st st')
    (os : List EADiagramObject) :
    ∀ st ns st', Inv st →
      processDiagramObjectsWith repo pe os st = Except.ok (ns, st') →
      GoodStep st st' := by
  induction os with
  | nil =>
    intro st ns st' h hok
    simp only [processDiagramObjectsWith] at hok
    cases hok
    exact goodStep_refl h
  | cons o os ih =>
    intro st ns st' h hok
    rw [processDiagramObjectsWith] at hok
    split at hok
    · exact ih st ns st' h hok
    · next el heq =>
      split at hok
      · exact ih st ns st' h hok
      · split at hok
        · exact absurd hok (by simp)
        · next n? st2 hpeeq =>
          split at hok
          · exact absurd hok (by simp)
          · next ns2 st3 hrec =>
            have h2 : GoodStep st st2 := hpe el (some o) st n? st2 h hpeeq
            have h3 : GoodStep st2 st3 := ih st2 ns2 st3 h2.1 hrec
            cases hok
            exact goodStep_trans h2 h3

theorem processLinkedDiagramsWith_goodStep (repo : Repository)
    (pe : EAElement → Option EADiagramObject → TState →
      Except PyError (Option Node × TState))
    (hpe : ∀ el o st n? st', Inv st → pe el o st = Except.ok (n?, st') →
      GoodStep st st')
    (ds : List EADiagram) :
    ∀ st recs st', Inv st →
      processLinkedDiagramsWith repo pe ds st = Except.ok (recs, st') →
      GoodStep st st' := by
  induction ds with
  | nil =>
    intro st recs st' h hok
    simp only [processLinkedDiagramsWith] at hok
    cases hok
    exact goodStep_refl h
  | cons d ds ih =>
    intro st recs st' h hok
    rw [processLinkedDiagramsWith] at hok
    split at hok
    · exact ih st recs st' h hok
    · next hd =>
      simp only [] at hok
      have h1 : GoodStep st
          { st with visitedDiagrams := st.visitedDiagrams ++ [d.diagramID] } := by
        refine ⟨⟨h.nodesNodup, h.nodesVisited, h.edgesNodup, h.edgesInSet, ?_⟩,
          fun i hi => hi, fun i hi => List.mem_append.mpr (Or.inl hi),
          fun i hi => hi, fun i hi => Or.inl hi, fun P pre => pre⟩
        exact List.Nodup.append h.diagNodup (List.nodup_singleton _)
          (fun x hx hy => by
            simp only [List.mem_singleton] at hy
            subst hy
            exact hd hx)
      split at hok
      · exact absurd hok (by simp)
      · next elems st2 hobj =>
        split at hok
        · exact absurd hok (by simp)
        · next recs2 st3 hrec =>
          have h2 : GoodStep _ st2 :=
            processDiagramObjectsWith_goodStep repo pe hpe d.diagramObjects
              _ elems st2 h1.1 hobj
          have h3 : GoodStep st2 st3 := ih st2 recs2 st3 h2.1 hrec
          cases hok
          exact goodStep_trans h1 (goodStep_trans h2 h3)

theorem processElement_goodStep (repo : Repository) :
    ∀ (fuel : Nat) (el : EAElement) (o : Option EADiagramObject)
      (st : TState) (n? : Option Node) (st' : TState), Inv st →
      processElement repo fuel el o st = Except.ok (n?, st') →
      GoodStep st st' := by
  intro fuel
  induction fuel with
  | zero =>
    intro el o st n? st' h hok
    simp only [processElement] at hok
    exact absurd hok (by simp)
  | succ f ih =>
    intro el o st n? st' h hok
    rw [processElement] at hok
    split at hok
    · next hv =>
      cases hok
      exact goodStep_refl h
    · next hv =>
      simp only [] at hok
      split at hok
      · exact absurd hok (by simp)
      · next linked st3 hlinked =>
        split at hok
        · exact absurd hok (by simp)
        · next st4 hedges =>
          cases hok
          -- the intermediate states
          have hInv1 : Inv { st with
              visitedElements := st.visitedElements ++ [el.elementID] } :=
            ⟨h.nodesNodup,
             fun i hi => List.mem_append.mpr (Or.inl (h.nodesVisited i hi)),
             h.edgesNodup, h.edgesInSet, h.diagNodup⟩
          have hG2 : GoodStep
              { st with visitedElements := st.visitedElements ++ [el.elementID] }
              (if el.classifierID != 0 then
                processExternalClassifier repo el.classifierID
                  { st with visitedElements := st.visitedElements ++ [el.elementID] }
               else
                { st with visitedElements := st.visitedElements ++ [el.elementID] }) := by
            split
            · exact processExternalClassifier_goodStep repo el.classifierID hInv1
            · exact goodStep_refl hInv1
          have hG3 : GoodStep _ st3 :=
            processLinkedDiagramsWith_goodStep repo _
              (fun el2 o2 st2 n2? st2' hi2 he2 => ih el2 o2 st2 n2? st2' hi2 he2)
              el.diagrams _ linked st3 hG2.1 hlinked
          have hG4 : GoodStep st3 st4 :=
            addEdgesFromElement_goodStep repo el hG3.1 hedges
          have hG : GoodStep
              { st with visitedElements := st.visitedElements ++ [el.elementID] }
              st4 := goodStep_trans hG2 (goodStep_trans hG3 hG4)
          obtain ⟨hInv4, hv4, hd4, hn4, hf4, hp4⟩ := hG
          have hmem1 : el.elementID ∈
              ({ st with visitedElements := st.visitedElements ++ [el.elementID] }
                : TState).visitedElements :=
            List.mem_append.mpr (Or.inr (List.mem_singleton.mpr rfl))
          have hidnotin : el.elementID ∉ nodeIds st.nodes :=
            fun hc => hv (h.nodesVisited _ hc)
          have hid4 : el.elementID ∉ nodeIds st4.nodes := by
            intro hc
            rcases hf4 _ hc with hc2 | hc2
            · exact hidnotin hc2
            · exact hc2 hmem1
          have hids4 : ∀ node : Node, nodeId? node = some el.elementID →
              nodeIds (st4.nodes ++ [node]) =
                nodeIds st4.nodes ++ [el.elementID] := by
            intro node hnode
            simp [nodeIds, hnode]
          have hnodeeq : nodeId? (Node.elemNode el.elementID el.name el.type
              (el.attributes.map mkAttrRecord) linked (o.map mkPosition)) =
              some el.elementID := rfl
          refine ⟨⟨?_, ?_, hInv4.edgesNodup, hInv4.edgesInSet, hInv4.diagNodup⟩,
            ?_, ?_, ?_, ?_, ?_⟩
          · rw [hids4 _ hnodeeq]
            exact List.Nodup.append hInv4.nodesNodup (List.nodup_singleton _)
              (fun x hx hy => by
                simp only [List.mem_singleton] at hy
                subst hy
                exact hid4 hx)
          · intro i hi
            rw [hids4 _ hnodeeq] at hi
            rcases List.mem_append.mp hi with hi | hi
            · exact hInv4.nodesVisited _ hi
            · rw [List.mem_singleton] at hi
              subst hi
              exact hv4 _ hmem1
          · intro i hi
            exact hv4 i (List.mem_append.mpr (Or.inl hi))
          · intro i hi
            exact hd4 i hi
          · intro i hi
            rw [hids4 _ hnodeeq]
            exact List.mem_append.mpr (Or.inl (hn4 i hi))
          · intro i hi
            rw [hids4 _ hnodeeq] at hi
            rcases List.mem_append.mp hi with hi | hi
            · rcases hf4 i hi with hc | hc
              · exact Or.inl hc
              · exact Or.inr fun hm => hc (List.mem_append.mpr (Or.inl hm))
            · rw [List.mem_singleton] at hi
              subst hi
              exact Or.inr hv
          · intro P pre i hi
            rw [hids4 _ hnodeeq]
            have pre1 : ∀ j ∈ ({ st with
                visitedElements := st.visitedElements ++ [el.elementID] }
                  : TState).visitedElements,
                j ∈ nodeIds st.nodes ∨ (P j ∨ j = el.elementID) := by
              intro j hj
              rcases List.mem_append.mp hj with hj | hj
              · rcases pre j hj with hpj | hpj
                · exact Or.inl hpj
                · exact Or.inr (Or.inl hpj)
              · rw [List.mem_singleton] at hj
                exact Or.inr (Or.inr hj)
            rcases hp4 (fun j => P j ∨ j = el.elementID) pre1 i hi with hc | hc | hc
            · exact Or.inl (List.mem_append.mpr (Or.inl hc))
            · exact Or.inr hc
            · subst hc
              exact Or.inl (List.mem_append.mpr (Or.inr (List.mem_singleton.mpr rfl)))

theorem processMainDiagram_init_spec (repo : Repository) (fuel : Nat)
    (pkg : EAPackage) (st' : TState)
    (hok : processMainDiagram repo fuel pkg initState = Except.ok st') :
    Inv st' ∧ (∀ i ∈ st'.visitedElements, i ∈ nodeIds st'.nodes) := by
  rw [processMainDiagram] at hok
  cases hd : pkg.diagrams with
  | nil =>
    rw [hd] at hok
    simp only [] at hok
    cases hok
    exact ⟨inv_initState, by simp [initState]⟩
  | cons mainDiagram rest =>
    rw [hd] at hok
    simp only [] at hok
    split at hok
    · exact absurd hok (by simp)
    · next elems st2 hobj =>
      cases hok
      have hInv1 : Inv { initState with
          visitedDiagrams := initState.visitedDiagrams ++ [mainDiagram.diagramID] } := by
        constructor <;> simp [initState, nodeIds]
      have hG : GoodStep _ st2 :=
        processDiagramObjectsWith_goodStep repo _
          (fun el o st n? st'' hi he =>
            processElement_goodStep repo fuel el o st n? st'' hi he)
          mainDiagram.diagramObjects _ elems st2 hInv1 hobj
      obtain ⟨hInv2, hv2, hd2, hn2, hf2, hp2⟩ := hG
      have hids : ∀ (nm ty : String) (drs : List DiagramRecord),
          nodeIds (st2.nodes ++ [Node.pkgNode nm ty drs]) = nodeIds st2.nodes := by
        intro nm ty drs
        simp [nodeIds, nodeId?]
      constructor
      · refine ⟨?_, ?_, hInv2.edgesNodup, hInv2.edgesInSet, hInv2.diagNodup⟩
        · rw [hids]
          exact hInv2.nodesNodup
        · intro i hi
          rw [hids] at hi
          exact hInv2.nodesVisited i hi
      · intro i hi
        rw [hids]
        have vac : ∀ j ∈ ({ initState with
            visitedDiagrams := initState.visitedDiagrams ++ [mainDiagram.diagramID] }
              : TState).visitedElements,
            j ∈ nodeIds ({ initState with
              visitedDiagrams := initState.visitedDiagrams ++ [mainDiagram.diagramID] }
                : TState).nodes ∨ False := by
          intro j hj
          simp [initState] at hj
        rcases hp2 (fun _ => False) vac i hi with hc | hc
        · exact hc
        · exact absurd hc id

theorem triples_nodup_of_keys {es : List Edge}
    (h : (es.map edgeKey).Nodup) : (es.map edgeTriple).Nodup := by
  have hmm : es.map edgeKey = (es.map edgeTriple).map tripleKey := by
    rw [List.map_map]
    rfl
  rw [hmm] at h
  exact List.Nodup.of_map tripleKey h

/-! ## Claim theorems -/

/-- Claim C1 counterexample: on the specified scenario (root package P with the
single diagram D placing A then B, and B owning the connector A to B), the
code returns the nodes in the order element A, element B, then the
PackageNode — the PackageNode is appended last by `process_main_diagram` —
so the claimed order [PackageNode, A, B] is wrong. -/
theorem c1_counterexample :
    generate_graph_from_package repo1 pkgP = Except.ok g1result ∧
    g1result.nodes ≠ [nodeP, nodeA, nodeB] := by
  constructor
  · rfl
  · intro hcontra
    have hmap := congrArg (fun l => l.map nodeId?) hcontra
    simp [g1result, nodeA, nodeB, nodeP, nodeId?] at hmap

/-- Claim C1 (amended): on the specified scenario the code returns
nodes = [A, B, PackageNode P] — the element nodes first, in discovery
order, with the PackageNode appended last — and
edges = [(from 1, to 2, "Association", "uses")]. -/
theorem c1_scenario :
    generate_graph_from_package repo1 pkgP = Except.ok g1result := rfl

/-- Claim C2 (code bug): when a traversal reaches `add_edges_from_element` and a
connector's client id does not resolve, the code dereferences the `None`
lookup result (`sourceElement.ElementID`) and raises an `AttributeError`
instead of skipping the connector: the export aborts, contradicting the
stated swallow-at-every-call-site policy. -/
theorem c2_dangling_endpoint_raises :
    generate_graph_from_package repo2 pkg2 = Except.error PyError.attributeError := rfl

/-- Claim C3 counterexample: on a diagram placing element 1 twice, the second
(resolvable, already-visited) placement contributes nothing: the produced
elements list is [A] and not the claimed one-entry-per-placement [A, A]. -/
theorem c3_counterexample :
    generate_graph_from_package repo3 pkg3 = Except.ok g3result ∧
    ([nodeA] : List Node) ≠ [nodeA, nodeA] := by
  constructor
  · rfl
  · intro h
    exact absurd (congrArg List.length h) (by simp)

/-- Claim C3 (amended): in every diagram expansion, a placement whose element id
was already visited is skipped entirely (it contributes no entry — it is
omitted, not reused), a placement that fails to resolve is skipped, and a
resolvable unvisited placement contributes exactly the node built for it,
at its position in placement order. -/
theorem c3_placement_handling :
    (∀ (repo : Repository) pe (o : EADiagramObject) os (st : TState)
      (el : EAElement),
      repo.GetElementByID o.elementID = some el →
      el.elementID ∈ st.visitedElements →
      processDiagramObjectsWith repo pe (o :: os) st =
        processDiagramObjectsWith repo pe os st) ∧
    (∀ (repo : Repository) pe (o : EADiagramObject) os (st : TState),
      repo.GetElementByID o.elementID = none →
      processDiagramObjectsWith repo pe (o :: os) st =
        processDiagramObjectsWith repo pe os st) ∧
    (∀ (repo : Repository) pe (o : EADiagramObject) os (st : TState)
      (el : EAElement) (n : Node) (st2 : TState),
      repo.GetElementByID o.elementID = some el →
      el.elementID ∉ st.visitedElements →
      pe el (some o) st = Except.ok (some n, st2) →
      processDiagramObjectsWith repo pe (o :: os) st =
        (processDiagramObjectsWith repo pe os st2).map
          (fun r => (n :: r.fst, r.snd))) := by
  refine ⟨?_, ?_, ?_⟩
  · intro repo pe o os st el h1 h2
    rw [processDiagramObjectsWith, h1]
    simp [h2]
  · intro repo pe o os st h1
    rw [processDiagramObjectsWith, h1]
  · intro repo pe o os st el n st2 h1 h2 h3
    rw [processDiagramObjectsWith, h1]
    simp only [if_neg h2, h3]
    cases hrec : processDiagramObjectsWith repo pe os st2 with
    | error err => simp [Except.map]
    | ok res => simp [Except.map]

theorem c3_witness :
    processDiagramObjectsWith repo3 (fun el o s => processElement repo3 2 el o s)
        [objA] { initState with visitedElements := [1] } =
      processDiagramObjectsWith repo3 (fun el o s => processElement repo3 2 el o s)
        [] { initState with visitedElements := [1] } :=
  c3_placement_handling.1 repo3 _ objA [] { initState with visitedElements := [1] }
    elemA (by rfl) (by decide)

/-- Claim C4: for every model source and root package, when the export succeeds
each element id occurs as the `"id"` of at most one node (element node or
external node) in the output nodes array. -/
theorem c4_no_duplicate_node_ids (repo : Repository) (pkg : EAPackage)
    (g : Graph) (h : generate_graph_from_package repo pkg = Except.ok g) :
    (nodeIds g.nodes).Nodup := by
  rw [generate_graph_from_package] at h
  split at h
  · exact absurd h (by simp)
  · next st hst =>
    cases h
    exact (processMainDiagram_init_spec repo _ pkg st hst).1.nodesNodup

theorem c4_witness : (nodeIds g1result.nodes).Nodup :=
  c4_no_duplicate_node_ids repo1 pkgP g1result (by rfl)

/-- Claim C5: for every model source and root package, when the export succeeds
at most one edge with a given (from, to, type) triple appears in the output
edges array: a connector whose key is already in `edge_set` is dropped. -/
theorem c5_no_duplicate_edge_triples (repo : Repository) (pkg : EAPackage)
    (g : Graph) (h : generate_graph_from_package repo pkg = Except.ok g) :
    (g.edges.map edgeTriple).Nodup := by
  rw [generate_graph_from_package] at h
  split at h
  · exact absurd h (by simp)
  · next st hst =>
    cases h
    exact triples_nodup_of_keys
      (processMainDiagram_init_spec repo _ pkg st hst).1.edgesNodup

theorem c5_witness : (g1result.edges.map edgeTriple).Nodup :=
  c5_no_duplicate_edge_triples repo1 pkgP g1result (by rfl)

/-- Claim C6: an already-visited diagram reached again through an element is
skipped entirely (not re-traversed and not re-listed under that element),
and across the whole export — main diagram and linked diagrams share one
visited set — every diagram id is marked (hence expanded) at most once. -/
theorem c6_diagram_single_visit :
    (∀ (repo : Repository) pe (d : EADiagram) ds (st : TState),
      d.diagramID ∈ st.visitedDiagrams →
      processLinkedDiagramsWith repo pe (d :: ds) st =
        processLinkedDiagramsWith repo pe ds st) ∧
    (∀ (repo : Repository) (fuel : Nat) (pkg : EAPackage) (st' : TState),
      processMainDiagram repo fuel pkg initState = Except.ok st' →
      st'.visitedDiagrams.Nodup) := by
  constructor
  · intro repo pe d ds st h
    rw [processLinkedDiagramsWith]
    simp [h]
  · intro repo fuel pkg st' h
    exact (processMainDiagram_init_spec repo fuel pkg st' h).1.diagNodup

theorem c6_witness :
    processLinkedDiagramsWith repo1 (fun el o s => processElement repo1 3 el o s)
        [diagD] { initState with visitedDiagrams := [7] } =
      processLinkedDiagramsWith repo1 (fun el o s => processElement repo1 3 el o s)
        [] { initState with visitedDiagrams := [7] } ∧
    stScenario.visitedDiagrams.Nodup :=
  ⟨c6_diagram_single_visit.1 repo1 _ diagD []
      { initState with visitedDiagrams := [7] } (by decide),
   c6_diagram_single_visit.2 repo1 3 pkgP stScenario (by rfl)⟩

/-- Claim C7: a root package whose diagram list is empty yields exactly the empty
graph — no PackageNode is emitted and no error is raised. -/
theorem c7_empty_diagram_package (repo : Repository) (pkg : EAPackage)
    (h : pkg.diagrams = []) :
    generate_graph_from_package repo pkg =
      Except.ok { nodes := [], edges := [] } := by
  have hpmd : processMainDiagram repo (repo.elements.length + 1) pkg initState =
      Except.ok initState := by
    rw [processMainDiagram, h]
  rw [generate_graph_from_package, hpmd]
  rfl

theorem c7_witness :
    generate_graph_from_package repo1 pkg7 =
      Except.ok { nodes := [], edges := [] } :=
  c7_empty_diagram_package repo1 pkg7 rfl

/-- Claim C8: the traversal is a pure function of (repository, package): two runs
on the same unchanged model source and package produce the same node list
and the same edge list, hence identical serialized output. -/
theorem c8_deterministic (repo : Repository) (pkg : EAPackage) (g1 g2 : Graph)
    (h1 : generate_graph_from_package repo pkg = Except.ok g1)
    (h2 : generate_graph_from_package repo pkg = Except.ok g2) :
    g1.nodes = g2.nodes ∧ g1.edges = g2.edges := by
  rw [h1] at h2
  cases h2
  exact ⟨rfl, rfl⟩

theorem c8_witness : g1result.nodes = g1result.nodes ∧ g1result.edges = g1result.edges :=
  c8_deterministic repo1 pkgP g1result g1result (by rfl) (by rfl)

/-- Claim C9: a non-zero classifier id that resolves to a not-yet-visited element
makes `process_external_classifier` append exactly the reduced external
node (id, name, type, owning package name when resolvable, attributes) and
mark the id visited, leaving edges, the edge set and the visited-diagram
set untouched (the classifier is not expanded further); and at the end of
`process_main_diagram` every visited element id — classifiers included —
has a node with that id in the output. -/
theorem c9_external_classifier :
    (∀ (repo : Repository) (cid : Nat) (st : TState) (cl : EAElement),
      repo.GetElementByID cid = some cl →
      cl.elementID ∉ st.visitedElements →
      processExternalClassifier repo cid st =
        { st with
          nodes := st.nodes ++ [externalNodeFor repo cl],
          visitedElements := st.visitedElements ++ [cl.elementID],
          processedElements := st.processedElements ++
            [(cl.elementID, externalNodeFor repo cl)] }) ∧
    (∀ (repo : Repository) (fuel : Nat) (pkg : EAPackage) (st' : TState),
      processMainDiagram repo fuel pkg initState = Except.ok st' →
      ∀ i ∈ st'.visitedElements, i ∈ nodeIds st'.nodes) := by
  constructor
  · intro repo cid st cl hcl hv
    rw [processExternalClassifier, hcl]
    simp [hv]
  · intro repo fuel pkg st' h
    exact (processMainDiagram_init_spec repo fuel pkg st' h).2

theorem c9_witness :
    processExternalClassifier repo1 2 initState =
      { initState with
        nodes := initState.nodes ++ [externalNodeFor repo1 elemB],
        visitedElements := initState.visitedElements ++ [elemB.elementID],
        processedElements := initState.processedElements ++
          [(elemB.elementID, externalNodeFor repo1 elemB)] } ∧
    1 ∈ nodeIds stScenario.nodes :=
  ⟨c9_external_classifier.1 repo1 2 initState elemB (by rfl) (by decide),
   c9_external_classifier.2 repo1 3 pkgP stScenario (by rfl) 1 (by decide)⟩

/-- Claim C10: edges are emitted for every connector owned by a visited element
even when the other endpoint is never visited: on `repo10` the output has
the edge (from 1, to 2) although no node carries id 2. -/
theorem c10_edge_endpoint_not_a_node :
    generate_graph_from_package repo10 pkg10 = Except.ok g10result ∧
    { fromID := 1, toID := 2, type := "Dependency", name := "x" } ∈ g10result.edges ∧
    (2 : Nat) ∉ nodeIds g10result.nodes := by
  refine ⟨rfl, by decide, by decide⟩

end JSONExporter
